import Mathlib

/-!
Verification development for `scripts/kicad_git_labeler.py` (MicroMatrix-PCB).

The Python script is embedded shallowly:

* External `git` subprocess calls are modelled by a `GitEnv` oracle: each
  field holds the `.decode().strip()`-ed output of the corresponding query,
  or `none` when the subprocess exits nonzero (which in Python raises
  `subprocess.CalledProcessError`).
* `get_git_info` (lines 16-78) returns either the 4-tuple
  `(revision, status, commit_date, branch)` (line 74) or, after a caught
  `CalledProcessError`, the 3-tuple `(None, None, None)` (line 78).  The two
  shapes are the two constructors of `GitRet`.  Python tuple unpacking into a
  mismatched number of names raises `ValueError`; the callers' unpacking is
  modelled case by case on `GitRet`.
* JSON documents are modelled by `Jval` / association lists with unique keys
  (as produced by `json.load`); `serializeObj` mirrors
  `json.dump(data, f, indent=2, ensure_ascii=False)`.
* The regex operations of the S-expression updater are implemented directly
  on `List Char`, following Python `re` semantics (leftmost match, lazy and
  greedy quantifiers) for the concrete patterns used by the script.
* Printed output is modelled by lists of `Msg` values, separated into the
  stdout and stderr streams; an uncaught Python exception is an
  `Except.error` outcome.
-/

/-- ASCII whitespace as matched by Python regex `\s` and `str.strip`. -/
def wsChar (c : Char) : Bool :=
  c = ' ' || c = '\t' || c = '\n' || c = '\r' || c = '\x0b' || c = '\x0c'

/-- Python `str.strip()`: remove whitespace from both ends. -/
def pyStrip (s : String) : String :=
  ⟨((s.toList.dropWhile wsChar).reverse.dropWhile wsChar).reverse⟩

/-- Left brace test without a brace literal. -/
def isLBrace (c : Char) : Bool := c.toNat = 123

/-- Python `content.strip().startswith('{')` (lines 242 and 325). -/
def pyStartsBrace (s : String) : Bool :=
  match (pyStrip s).toList with
  | c :: _ => isLBrace c
  | [] => false

/-- Python `s.split()[0]` for a stripped nonempty `s`: the first
whitespace-delimited token (line 62: `commit_date.split()[0]`). -/
def firstToken (s : String) : String :=
  ⟨s.toList.takeWhile (fun c => !(wsChar c))⟩

/-- JSON values as produced by `json.load` (floats are not needed by any
claim and are omitted). -/
inductive Jval where
  | str : String → Jval
  | num : Int → Jval
  | bool : Bool → Jval
  | null : Jval
  | arr : List Jval → Jval
  | obj : List (String × Jval) → Jval

/-- A JSON object: a Python dict, i.e. an insertion-ordered association list
with unique keys. -/
abbrev Jobj := List (String × Jval)

/-- Python `==` between a parsed JSON value and a `str` (the right-hand
sides on lines 108-115 are always strings): true exactly when the value is
that string. -/
def jvalEqStr : Jval → String → Bool
  | .str a, s => a == s
  | _, _ => false

/-- Python `d.get(k)` / `k in d` support: first (unique) binding of `k`. -/
def dictGet : Jobj → String → Option Jval
  | [], _ => none
  | (k2, v) :: rest, k => if k2 = k then some v else dictGet rest k

/-- Python `d[k] = v`: replace the value at an existing key in place,
otherwise append the new binding at the end (dict insertion order). -/
def dictSet : Jobj → String → Jval → Jobj
  | [], k, v => [(k, v)]
  | (k2, v2) :: rest, k, v =>
    if k2 = k then (k, v) :: rest else (k2, v2) :: dictSet rest k v

/-- Spaces for JSON indentation. -/
def spaces (n : Nat) : String := ⟨List.replicate n ' '⟩

/-- One hex digit. -/
def hexDigit (n : Nat) : Char :=
  if n < 10 then Char.ofNat (48 + n) else Char.ofNat (87 + (n - 10))

/-- Escape one character as `json.dump` with `ensure_ascii=False` does. -/
def jsonEscChar (c : Char) : List Char :=
  if c = '"' then ['\\', '"']
  else if c = '\\' then ['\\', '\\']
  else if c = '\n' then ['\\', 'n']
  else if c = '\t' then ['\\', 't']
  else if c = '\r' then ['\\', 'r']
  else if c = '\x08' then ['\\', 'b']
  else if c = '\x0c' then ['\\', 'f']
  else if c.toNat < 32 then
    ['\\', 'u', '0', '0', hexDigit (c.toNat / 16), hexDigit (c.toNat % 16)]
  else [c]

/-- JSON string quoting. -/
def jsonQuote (s : String) : String :=
  ⟨'"' :: (s.toList.flatMap jsonEscChar) ++ ['"']⟩

mutual
/-- `json.dump(v, indent=2, ensure_ascii=False)` of a value placed at
indentation level `ind`. -/
def serializeVal : Nat → Jval → String
  | _, .str s => jsonQuote s
  | _, .num n => toString n
  | _, .bool b => if b then "true" else "false"
  | _, .null => "null"
  | ind, .arr xs => serializeArr ind xs
  | ind, .obj m => serializeObj ind m

def serializeArr : Nat → List Jval → String
  | _, [] => "[]"
  | ind, x :: xs =>
    "[\n" ++ spaces (ind + 2) ++ serializeVal (ind + 2) x ++
      serializeArrRest (ind + 2) xs ++ "\n" ++ spaces ind ++ "]"

def serializeArrRest : Nat → List Jval → String
  | _, [] => ""
  | ind, x :: xs =>
    ",\n" ++ spaces ind ++ serializeVal ind x ++ serializeArrRest ind xs

def serializeObj : Nat → Jobj → String
  | _, [] => "\x7b\x7d"
  | ind, (k, v) :: xs =>
    "\x7b\n" ++ spaces (ind + 2) ++ jsonQuote k ++ ": " ++
      serializeVal (ind + 2) v ++ serializeObjRest (ind + 2) xs ++
      "\n" ++ spaces ind ++ "\x7d"

def serializeObjRest : Nat → Jobj → String
  | _, [] => ""
  | ind, (k, v) :: xs =>
    ",\n" ++ spaces ind ++ jsonQuote k ++ ": " ++ serializeVal ind v ++
      serializeObjRest ind xs
end

/-- Messages printed by the script; constructors carry the data interpolated
into the corresponding Python format strings. -/
inductive Msg where
  | errNotGitRepo
  | errNotExist
  | errWrongExt
  | errReadFile
  | errInvalidJson
  | noChangesNeeded
  | wouldUpdate (vals : List (String × String))
  | updatedFile (vals : List (String × String))
  | doneBanner
  | diagAnalyzing
  | diagFormatJson
  | diagFormatSexpr
  | diagJsonVars (vals : Jobj)
  | diagNoJsonVars
  | diagInvalidJson
  | diagSexprBlock (blk : String)
  | diagNoSexprBlock

/-- Python exceptions that the script can raise without catching them. -/
inductive PyErr where
  | valueError
  | attributeError

/-- Oracle for the `git` subprocess calls made by `get_git_info`.  Each field
is the stripped stdout of the query, or `none` when the subprocess fails
(raising `CalledProcessError`).  `today` models `datetime.now()` formatted as
`%Y-%m-%d`. -/
structure GitEnv where
  describeTag : Option String
  revListCount : String → Option String
  branch : Option String
  logDate : Option String
  statusPorcelain : Option String
  today : String

/-- The two shapes of value `get_git_info` can return: the success 4-tuple
(line 74) and the failure 3-tuple `(None, None, None)` (line 78). -/
inductive GitRet where
  | tuple4 (revision status commit_date branch : String)
  | tuple3none

/-- `get_git_info` (lines 16-78), together with the stderr line it prints on
failure.  The inner `try` around `git describe` substitutes the baseline tag
`v0.0.0`; every other `CalledProcessError` reaches the outer handler. -/
def get_git_info (env : GitEnv) : GitRet × List Msg :=
  let last_tag := match env.describeTag with
    | some t => t
    | none => "v0.0.0"
  match env.revListCount last_tag with
  | none => (.tuple3none, [.errNotGitRepo])
  | some commits_since_tag =>
    match env.branch with
    | none => (.tuple3none, [.errNotGitRepo])
    | some branch =>
      let revision :=
        if commits_since_tag = "0" then last_tag
        else last_tag ++ "." ++ commits_since_tag
      match env.logDate with
      | none => (.tuple3none, [.errNotGitRepo])
      | some cd =>
        let commit_date := if cd = "" then env.today else firstToken cd
        match env.statusPorcelain with
        | none => (.tuple3none, [.errNotGitRepo])
        | some st =>
          let status := if st = "" then "clean" else "dirty"
          (.tuple4 revision status commit_date branch, [])

/-- On-disk state of the project file as seen by the JSON updater: the read
can fail, the content can fail `json.load`, or it parses to a document.  For
`parsed raw doc`, `doc` is what `json.load` yields on the bytes `raw`. -/
inductive JsonFileState where
  | unreadable
  | malformed (raw : String)
  | parsed (raw : String) (doc : Jobj)

/-- Result of one updater call: the Python return value (or uncaught
exception), the final on-disk file, and the printed output. -/
structure UpdResult (F : Type) where
  outcome : Except PyErr Bool
  finalFile : F
  stdoutMsgs : List Msg
  stderrMsgs : List Msg

/-- Lines 103-104: `if 'text_variables' not in data: data['text_variables'] = {}`. -/
def ensureTv (data : Jobj) : Jobj :=
  if (dictGet data "text_variables").isNone
  then dictSet data "text_variables" (.obj []) else data

/-- Lines 118-121: set the four variables in source order. -/
def tvSetAll (revision status date branch : String) (tv : Jobj) : Jobj :=
  dictSet (dictSet (dictSet (dictSet tv "VERSION" (.str revision))
    "BUILD_DATE" (.str date)) "STATUS" (.str status)) "BRANCH" (.str branch)

/-- The four values in the order the script prints them (lines 129-132). -/
def fourVals (revision status date branch : String) : List (String × String) :=
  [("VERSION", revision), ("BUILD_DATE", date), ("STATUS", status), ("BRANCH", branch)]

/-- Lines 91-148 of `update_kicad_project_json`, after the git values have
been unpacked.  The comparisons on lines 108-115 call `.get` on
`data['text_variables']`; when that value is not a dict this raises
`AttributeError`. -/
def jsonBody (revision status date branch : String) (raw : String) (data : Jobj)
    (dryRun : Bool) (gerr : List Msg) : UpdResult JsonFileState :=
  let data1 := ensureTv data
  match dictGet data1 "text_variables" with
  | some (.obj tv) =>
    let changed :=
      !((dictGet tv "VERSION").elim false (fun v => jvalEqStr v revision)) ||
      !((dictGet tv "BUILD_DATE").elim false (fun v => jvalEqStr v date)) ||
      !((dictGet tv "STATUS").elim false (fun v => jvalEqStr v status)) ||
      !((dictGet tv "BRANCH").elim false (fun v => jvalEqStr v branch))
    let tv2 := tvSetAll revision status date branch tv
    let data2 := dictSet data1 "text_variables" (.obj tv2)
    if changed = false then
      ⟨.ok true, .parsed raw data, [.noChangesNeeded], gerr⟩
    else if dryRun then
      ⟨.ok true, .parsed raw data, [.wouldUpdate (fourVals revision status date branch)], gerr⟩
    else
      ⟨.ok true, .parsed (serializeObj 0 data2 ++ "\n") data2,
        [.updatedFile (fourVals revision status date branch)], gerr⟩
  | _ => ⟨.error .attributeError, .parsed raw data, [], gerr⟩

/-- `update_kicad_project_json` (lines 81-148).  Line 87 unpacks the return
of `get_git_info` into four names; when the resolver failed it returned the
3-tuple `(None, None, None)`, so the unpacking raises `ValueError` before the
`if revision is None` guard on line 88 can run. -/
def update_kicad_project_json (env : GitEnv) (file : JsonFileState) (dryRun : Bool) :
    UpdResult JsonFileState :=
  match get_git_info env with
  | (.tuple3none, gerr) => ⟨.error .valueError, file, [], gerr⟩
  | (.tuple4 revision status date branch, gerr) =>
    match file with
    | .unreadable => ⟨.ok false, .unreadable, [], gerr ++ [.errReadFile]⟩
    | .malformed raw => ⟨.ok false, .malformed raw, [], gerr ++ [.errInvalidJson]⟩
    | .parsed raw data => jsonBody revision status date branch raw data dryRun gerr

/-- Match a literal character sequence at the head of the input, returning
the remainder. -/
def dropLit : List Char → List Char → Option (List Char)
  | [], cs => some cs
  | _ :: _, [] => none
  | l :: ls, c :: cs => if l = c then dropLit ls cs else none

theorem dropLit_length : ∀ (l cs r : List Char), dropLit l cs = some r →
    cs.length = l.length + r.length := by
  intro l
  induction l with
  | nil =>
    intro cs r h
    simp [dropLit] at h
    subst h
    simp
  | cons a ls ih =>
    intro cs r h
    cases cs with
    | nil => simp [dropLit] at h
    | cons c cs2 =>
      by_cases hac : a = c
      · simp [dropLit, hac] at h
        have := ih cs2 r h
        simp [this]
        omega
      · simp [dropLit, hac] at h

theorem dropLit_append : ∀ (l cs r : List Char), dropLit l cs = some r →
    cs = l ++ r := by
  intro l
  induction l with
  | nil =>
    intro cs r h
    simp [dropLit] at h
    simp [h]
  | cons a ls ih =>
    intro cs r h
    cases cs with
    | nil => simp [dropLit] at h
    | cons c cs2 =>
      by_cases hac : a = c
      · simp [dropLit, hac] at h
        simp [hac, ih cs2 r h]
      · simp [dropLit, hac] at h

/-- Regex fragment `\n\s*\)` at the head of the input (the close of the
`text_variables` block pattern, line 172).  `)` is not whitespace, so the
greedy `\s*` is forced: the first non-whitespace character after the newline
must be the closing paren.  Returns the remainder after `)`. -/
def nlWsClose : List Char → Option (List Char)
  | [] => none
  | c :: rest =>
    if c = '\n' then
      match rest.dropWhile wsChar with
      | d :: r => if d = ')' then some r else none
      | [] => none
    else none

/-- Lazy group `(.*?)` (with `re.DOTALL`) followed by `\n\s*\)`: try the
close at the current position first, else add one character (any character,
including a newline) to the group.  Returns `(group, remainder)`. -/
def lazyInner : List Char → Option (List Char × List Char)
  | [] => none
  | c :: rest2 =>
    match nlWsClose (c :: rest2) with
    | some rest => some ([], rest)
    | none => (lazyInner rest2).map fun gr => (c :: gr.1, gr.2)

/-- Regex fragment `\s*\n` followed by the lazy inner group: the greedy
`\s*` prefers the longest whitespace run, backtracking to end at a newline
so that the rest of the pattern can match. -/
def wsNlInner : List Char → Option (List Char × List Char)
  | [] => none
  | c :: rest =>
    if wsChar c then
      match wsNlInner rest with
      | some r => some r
      | none => if c = '\n' then lazyInner rest else none
    else none

/-- Full pattern `\(text_variables\s*\n(.*?)\n\s*\)` (line 172) anchored at
the head of the input.  Returns `(group 1, remainder after the match)`. -/
def tvBlockAt (cs : List Char) : Option (List Char × List Char) :=
  match dropLit "(text_variables".toList cs with
  | none => none
  | some r1 => wsNlInner r1

/-- `re.search` of the `text_variables` block pattern: leftmost match.
Returns `(text before the match, group 1, text after the match)`. -/
def findTvBlockL : List Char → Option (List Char × List Char × List Char)
  | [] => none
  | c :: rest =>
    match tvBlockAt (c :: rest) with
    | some (g, post) => some ([], g, post)
    | none => (findTvBlockL rest).map fun r => (c :: r.1, r.2.1, r.2.2)

/-- Pattern `\(KEY\s+"[^"]*"\)` (lines 178, 187) anchored at the head of the
input.  Both `\s+` and `[^"]*` are forced by the following literal, so no
backtracking arises.  Returns the remainder after the match. -/
def entryAt (key : List Char) (cs : List Char) : Option (List Char) :=
  match dropLit ('(' :: key) cs with
  | none => none
  | some [] => none
  | some (c :: r2) =>
    if wsChar c then
      match r2.dropWhile wsChar with
      | '"' :: r4 =>
        match r4.dropWhile (fun ch => !(ch == '"')) with
        | '"' :: ')' :: r6 => some r6
        | _ => none
      | _ => none
    else none

theorem length_dropWhile_le (p : Char → Bool) (l : List Char) :
    (l.dropWhile p).length ≤ l.length := by
  induction l with
  | nil => simp
  | cons a as ih =>
    by_cases h : p a
    · simp [List.dropWhile, h]
      omega
    · simp [List.dropWhile, h]

theorem entryAt_length {key cs r} (h : entryAt key cs = some r) :
    r.length < cs.length := by
  unfold entryAt at h
  split at h
  · exact absurd h (by simp)
  · exact absurd h (by simp)
  · rename_i c r2 hdrop
    have hlen := dropLit_length _ _ _ hdrop
    split at h
    · rename_i hws
      split at h
      · rename_i r4 hr4
        have h4 : r4.length < r2.length := by
          have := length_dropWhile_le wsChar r2
          rw [hr4] at this
          simp at this
          omega
        split at h
        · rename_i r6 hr6
          have h6 : r6.length < r4.length := by
            have := length_dropWhile_le (fun ch => !(ch == '"')) r4
            rw [hr6] at this
            simp at this
            omega
          have : r = r6 := by simpa using h.symm
          subst this
          simp at hlen
          omega
        · exact absurd h (by simp)
      · exact absurd h (by simp)
    · exact absurd h (by simp)

/-- `re.sub` of the entry pattern with a literal replacement: replace every
non-overlapping occurrence, scanning left to right.  Structural recursion on
a fuel counter initialized to the input length; by `entryAt_length` every
match consumes at least one character, so the fuel never runs out. -/
def subEntryGo (key repl : List Char) : Nat → List Char → List Char
  | _, [] => []
  | 0, cs => cs
  | fuel + 1, c :: rest =>
    match entryAt key (c :: rest) with
    | some r2 => repl ++ subEntryGo key repl fuel r2
    | none => c :: subEntryGo key repl fuel rest

def subEntryL (key repl cs : List Char) : List Char :=
  subEntryGo key repl cs.length cs

/-- `re.search` of the entry pattern as a boolean (lines 178, 187). -/
def containsEntryL (key : List Char) : List Char → Bool
  | [] => false
  | c :: rest =>
    match entryAt key (c :: rest) with
    | some _ => true
    | none => containsEntryL key rest

/-- Lazy group `.*?` (no DOTALL) followed by `\n` (pattern
`(\(kicad_pro.*?\n)`, line 205): everything up to and including the first
newline.  Returns `(consumed text, remainder)`. -/
def lazyToNl : List Char → Option (List Char × List Char)
  | [] => none
  | c :: rest =>
    if c = '\n' then some (['\n'], rest)
    else (lazyToNl rest).map fun mr => (c :: mr.1, mr.2)

/-- Pattern `(\(kicad_pro.*?\n)` anchored at the head of the input. -/
def kicadProAt (cs : List Char) : Option (List Char × List Char) :=
  match dropLit "(kicad_pro".toList cs with
  | none => none
  | some r => (lazyToNl r).map fun mr => ("(kicad_pro".toList ++ mr.1, mr.2)

/-- `re.search` of the `kicad_pro` header pattern: leftmost match.  Returns
`(text up to and including the match, remainder)`, i.e. the split at
`match.end()` used on line 207. -/
def findKicadProL : List Char → Option (List Char × List Char)
  | [] => none
  | c :: rest =>
    match kicadProAt (c :: rest) with
    | some (m, r2) => some (m, r2)
    | none => (findKicadProL rest).map fun pr => (c :: pr.1, pr.2)

/-- Literal replacement text `(KEY "value")` used on lines 181, 185, 190,
194 (f-strings interpolating the computed value). -/
def entryRepl (key value : List Char) : List Char :=
  ('(' :: key) ++ (' ' :: '"' :: value) ++ ['"', ')']

def verKey : List Char := "VERSION".toList

def bdKey : List Char := "BUILD_DATE".toList

/-- Lines 176-194: update the inside of an existing `text_variables` block:
replace each of the two entries in place if present, else append it on a new
indented line. -/
def rebuiltInner (revision date inner : List Char) : List Char :=
  let t1 := if containsEntryL verKey inner
            then subEntryL verKey (entryRepl verKey revision) inner
            else inner ++ "\n    ".toList ++ entryRepl verKey revision
  if containsEntryL bdKey t1
  then subEntryL bdKey (entryRepl bdKey date) t1
  else t1 ++ "\n    ".toList ++ entryRepl bdKey date

/-- Line 196: `f'(text_variables\n{text_vars_content}\n  )'`. -/
def rebuiltBlock (revision date inner : List Char) : List Char :=
  "(text_variables\n".toList ++ rebuiltInner revision date inner ++ "\n  )".toList

/-- Lines 200-204: the synthesized `text_variables` section. -/
def sectionL (revision date : List Char) : List Char :=
  "  (text_variables\n    ".toList ++ entryRepl verKey revision ++
    "\n    ".toList ++ entryRepl bdKey date ++ "\n  )\n".toList

/-- Lines 171-207: the whole-content transformation of the S-expression
updater.  With a `text_variables` block, splice the rebuilt block between
`match.start()` and `match.end()`; otherwise insert the synthesized section
after the `(kicad_pro ...` header line; with neither anchor, the content is
returned unchanged. -/
def sexprTransformL (revision date cs : List Char) : List Char :=
  match findTvBlockL cs with
  | some (pre, inner, post) => pre ++ rebuiltBlock revision date inner ++ post
  | none =>
    match findKicadProL cs with
    | some (preIncl, rest) => preIncl ++ sectionL revision date ++ rest
    | none => cs

/-- On-disk state of the project file as seen by the S-expression updater. -/
inductive TextFile where
  | unreadable
  | fileContent (s : String)

/-- Lines 161-228 of `update_kicad_project_sexpr`: the body that would run
after the unpacking on line 157, given `revision` and `date`.  Compares the
transformed text with the original (line 209); identical means a reported
no-op, otherwise the new text is written unless `dry_run`. -/
def sexprBody (revision date : String) (file : TextFile) (dryRun : Bool) :
    UpdResult TextFile :=
  match file with
  | .unreadable => ⟨.ok false, .unreadable, [], [.errReadFile]⟩
  | .fileContent c =>
    let newC : String := ⟨sexprTransformL revision.toList date.toList c.toList⟩
    if newC = c then ⟨.ok true, .fileContent c, [.noChangesNeeded], []⟩
    else if dryRun then
      ⟨.ok true, .fileContent c,
        [.wouldUpdate [("VERSION", revision), ("BUILD_DATE", date)]], []⟩
    else
      ⟨.ok true, .fileContent newC,
        [.updatedFile [("VERSION", revision), ("BUILD_DATE", date)]], []⟩

/-- `update_kicad_project_sexpr` (lines 151-228).  Line 157 unpacks the
return of `get_git_info` into THREE names (`revision, date, branch`).  On
the success path the resolver returned a 4-tuple, so the unpacking raises
`ValueError` and nothing of the body (lines 161-228, modelled by
`sexprBody`) runs.  On the failure path the 3-tuple `(None, None, None)`
unpacks fine, `revision` is `None`, and the function returns `False`
(line 158-159). -/
def update_kicad_project_sexpr (env : GitEnv) (file : TextFile) (dryRun : Bool) :
    UpdResult TextFile :=
  match get_git_info env with
  | (.tuple4 _ _ _ _, gerr) => ⟨.error .valueError, file, [], gerr⟩
  | (.tuple3none, gerr) => ⟨.ok false, file, [], gerr⟩

/-- Diagnose-mode pattern `\(text_variables.*?\n\s*\)` (line 257) anchored
at the head of the input: returns the whole matched text (`group(0)`). -/
def tvDiagAt (cs : List Char) : Option (List Char) :=
  match dropLit "(text_variables".toList cs with
  | none => none
  | some r =>
    (lazyInner r).map fun gr =>
      "(text_variables".toList ++ r.take (r.length - gr.2.length)

/-- `re.search` of the diagnose-mode block pattern: leftmost match. -/
def diagSearchTv : List Char → Option (List Char)
  | [] => none
  | c :: rest =>
    match tvDiagAt (c :: rest) with
    | some m => some m
    | none => diagSearchTv rest

/-- On-disk state of the project file as seen by `main`: possibly
unreadable, else raw bytes together with what `json.loads` would yield on
them (`none` when they are not valid JSON). -/
inductive DiskFile where
  | unreadable
  | stored (raw : String) (pj : Option Jobj)

def toJsonFileState : DiskFile → JsonFileState
  | .unreadable => .unreadable
  | .stored raw none => .malformed raw
  | .stored raw (some d) => .parsed raw d

def ofJsonFileState : JsonFileState → DiskFile
  | .unreadable => .unreadable
  | .malformed raw => .stored raw none
  | .parsed raw d => .stored raw (some d)

/-- `diagnose_project` (lines 230-262).  It prints and never writes; its
only uncaught exception is the `AttributeError` from calling `.items()` on a
non-dict `text_variables` value (line 250). -/
def diagnose_project (file : DiskFile) : Except PyErr (List Msg × List Msg) :=
  match file with
  | .unreadable => .ok ([], [.errReadFile])
  | .stored raw pj =>
    if pyStartsBrace raw then
      match pj with
      | none => .ok ([.diagAnalyzing, .diagFormatJson, .diagInvalidJson], [])
      | some data =>
        match dictGet data "text_variables" with
        | some (.obj tv) => .ok ([.diagAnalyzing, .diagFormatJson, .diagJsonVars tv], [])
        | some _ => .error .attributeError
        | none => .ok ([.diagAnalyzing, .diagFormatJson, .diagNoJsonVars], [])
    else
      match diagSearchTv raw.toList with
      | some blk => .ok ([.diagAnalyzing, .diagFormatSexpr, .diagSexprBlock ⟨blk⟩], [])
      | none => .ok ([.diagAnalyzing, .diagFormatSexpr, .diagNoSexprBlock], [])

/-- Parsed command-line state for one invocation of `main`. -/
structure MainArgs where
  existsOnDisk : Bool
  suffixIsKicadPro : Bool
  file : DiskFile
  dryRun : Bool
  projectOnly : Bool
  diagnose : Bool

/-- Result of `main`: the process exit code (or uncaught exception, which
makes the Python process exit nonzero with a traceback), the final on-disk
file, and the printed output. -/
structure MainResult where
  exitCode : Except PyErr Nat
  finalFile : DiskFile
  stdoutMsgs : List Msg
  stderrMsgs : List Msg

/-- The S-expression updater leaves the file unchanged on every path, so its
`TextFile` result maps back to the original `DiskFile`; for a hypothetical
rewrite the new raw text is stored (no theorem consults its parse field). -/
def ofTextFileUpd (orig : DiskFile) : TextFile → DiskFile
  | .unreadable => orig
  | .fileContent c =>
    match orig with
    | .stored raw pj => if c = raw then .stored raw pj else .stored c none
    | .unreadable => .stored c none

/-- Lines 330-352: translate an updater's return value into the exit code,
appending the final banner on a successful non-dry full run. -/
def mainFinish (a : MainArgs) (outcome : Except PyErr Bool) (f : DiskFile)
    (o e : List Msg) : MainResult :=
  match outcome with
  | .error ex => ⟨.error ex, f, o, e⟩
  | .ok false => ⟨.ok 1, f, o, e⟩
  | .ok true =>
    if a.projectOnly then ⟨.ok 0, f, o, e⟩
    else ⟨.ok 0, f, o ++ (if a.dryRun then [] else [.doneBanner]), e⟩

/-- `main` (lines 265-352): existence and extension checks, diagnose mode
(whose return value is ignored; the branch always returns 0, lines 317-319),
format detection, and dispatch to the two updaters. -/
def mainRun (env : GitEnv) (a : MainArgs) : MainResult :=
  if a.existsOnDisk = false then ⟨.ok 1, a.file, [], [.errNotExist]⟩
  else if a.suffixIsKicadPro = false then ⟨.ok 1, a.file, [], [.errWrongExt]⟩
  else if a.diagnose then
    match diagnose_project a.file with
    | .ok (o, e) => ⟨.ok 0, a.file, o, e⟩
    | .error ex => ⟨.error ex, a.file, [], []⟩
  else
    match a.file with
    | .unreadable => ⟨.ok 1, a.file, [], [.errReadFile]⟩
    | .stored raw pj =>
      if pyStartsBrace raw then
        let r := update_kicad_project_json env (toJsonFileState (.stored raw pj)) a.dryRun
        mainFinish a r.outcome (ofJsonFileState r.finalFile) r.stdoutMsgs r.stderrMsgs
      else
        let r := update_kicad_project_sexpr env (.fileContent raw) a.dryRun
        mainFinish a r.outcome (ofTextFileUpd (.stored raw pj) r.finalFile) r.stdoutMsgs r.stderrMsgs

/-- The spec's worked example (section 8): tag `v1.2.0`, 3 commits after it,
branch `main`, last commit dated 2024-01-15, clean working tree. -/
def envMain : GitEnv where
  describeTag := some "v1.2.0"
  revListCount := fun t => if t = "v1.2.0" then some "3" else none
  branch := some "main"
  logDate := some "2024-01-15 10:23:45 +0100"
  statusPorcelain := some ""
  today := "2025-06-01"

/-- A directory that is not a git repository: every query fails. -/
def envNoRepo : GitEnv where
  describeTag := none
  revListCount := fun _ => none
  branch := none
  logDate := none
  statusPorcelain := none
  today := "2025-06-01"

/-- A git repository with zero tags: `git describe --tags` fails, and since
no ref of the repository is named `v0.0.0`, `git rev-list v0.0.0..HEAD`
fails too (`unknown revision`); the branch, log and status queries would
succeed. -/
def envNoTags : GitEnv where
  describeTag := none
  revListCount := fun _ => none
  branch := some "main"
  logDate := some "2024-01-15 10:23:45 +0100"
  statusPorcelain := some ""
  today := "2025-06-01"

/-- Hypothetical oracle for a tagless repository in which the count query
for the baseline `v0.0.0` nevertheless answers 7 — real git cannot produce
this, since `v0.0.0` names no revision there; it isolates what the code
would compute if the count query succeeded. -/
def envNoTagsHyp : GitEnv where
  describeTag := none
  revListCount := fun t => if t = "v0.0.0" then some "7" else none
  branch := some "main"
  logDate := some "2024-01-15 10:23:45 +0100"
  statusPorcelain := some ""
  today := "2025-06-01"

/-- `get_git_info` returns exactly one of its two source shapes: the success
4-tuple with no stderr output, or the failure 3-tuple with the error line. -/
theorem get_git_info_shape (env : GitEnv) :
    (∃ r s d b, get_git_info env = (.tuple4 r s d b, [])) ∨
    get_git_info env = (.tuple3none, [.errNotGitRepo]) := by
  cases hc : env.revListCount (match env.describeTag with
      | some t => t
      | none => "v0.0.0") with
  | none => right; simp [get_git_info, hc]
  | some cnt =>
    cases hb : env.branch with
    | none => right; simp [get_git_info, hc, hb]
    | some br =>
      cases hd : env.logDate with
      | none => right; simp [get_git_info, hc, hb, hd]
      | some cd =>
        cases hs : env.statusPorcelain with
        | none => right; simp [get_git_info, hc, hb, hd, hs]
        | some st =>
          left
          have hgoal : get_git_info env =
              (.tuple4
                (if cnt = "0" then (match env.describeTag with
                    | some t => t
                    | none => "v0.0.0")
                  else (match env.describeTag with
                    | some t => t
                    | none => "v0.0.0") ++ "." ++ cnt)
                (if st = "" then "clean" else "dirty")
                (if cd = "" then env.today else firstToken cd) br, []) := by
            simp [get_git_info, hc, hb, hd, hs]
          exact ⟨_, _, _, _, hgoal⟩

theorem dictGet_dictSet_self (d : Jobj) (k : String) (v : Jval) :
    dictGet (dictSet d k v) k = some v := by
  induction d with
  | nil => simp [dictSet, dictGet]
  | cons a rest ih =>
    obtain ⟨k2, v2⟩ := a
    by_cases h : k2 = k
    · simp [dictSet, h, dictGet]
    · simp [dictSet, h, dictGet, ih]

theorem dictGet_dictSet_other (d : Jobj) (k k2 : String) (v : Jval) (hne : k ≠ k2) :
    dictGet (dictSet d k v) k2 = dictGet d k2 := by
  induction d with
  | nil => simp [dictSet, dictGet, hne]
  | cons a rest ih =>
    obtain ⟨k3, v3⟩ := a
    by_cases h : k3 = k
    · subst h
      simp [dictSet, dictGet, hne, ih]
    · simp [dictSet, h, dictGet, ih]

theorem tvSetAll_get_VERSION (r s d b : String) (tv : Jobj) :
    dictGet (tvSetAll r s d b tv) "VERSION" = some (.str r) := by
  unfold tvSetAll
  rw [dictGet_dictSet_other _ _ _ _ (by decide), dictGet_dictSet_other _ _ _ _ (by decide),
    dictGet_dictSet_other _ _ _ _ (by decide), dictGet_dictSet_self]

theorem tvSetAll_get_BUILD_DATE (r s d b : String) (tv : Jobj) :
    dictGet (tvSetAll r s d b tv) "BUILD_DATE" = some (.str d) := by
  unfold tvSetAll
  rw [dictGet_dictSet_other _ _ _ _ (by decide), dictGet_dictSet_other _ _ _ _ (by decide),
    dictGet_dictSet_self]

theorem tvSetAll_get_STATUS (r s d b : String) (tv : Jobj) :
    dictGet (tvSetAll r s d b tv) "STATUS" = some (.str s) := by
  unfold tvSetAll
  rw [dictGet_dictSet_other _ _ _ _ (by decide), dictGet_dictSet_self]

theorem tvSetAll_get_BRANCH (r s d b : String) (tv : Jobj) :
    dictGet (tvSetAll r s d b tv) "BRANCH" = some (.str b) := by
  unfold tvSetAll
  rw [dictGet_dictSet_self]

theorem ensureTv_get_other (data : Jobj) (k : String) (hk : k ≠ "text_variables") :
    dictGet (ensureTv data) k = dictGet data k := by
  unfold ensureTv
  split
  · rw [dictGet_dictSet_other _ _ _ _ (fun h => hk h.symm)]
  · rfl


theorem nlWsClose_decomp {cs r : List Char} (h : nlWsClose cs = some r) :
    ∃ mid, cs = mid ++ r := by
  cases cs with
  | nil => exact Option.noConfusion h
  | cons c rest =>
    have h1 : (if c = '\n' then
        match rest.dropWhile wsChar with
        | d :: r2 => if d = ')' then some r2 else none
        | [] => none
      else none) = some r := h
    by_cases hc : c = '\n'
    · rw [if_pos hc] at h1
      cases hd : rest.dropWhile wsChar with
      | nil =>
        rw [hd] at h1
        exact Option.noConfusion h1
      | cons d r2 =>
        rw [hd] at h1
        have h2 : (if d = ')' then some r2 else none) = some r := h1
        by_cases hdp : d = ')'
        · rw [if_pos hdp] at h2
          have hr : r2 = r := Option.some.inj h2
          refine ⟨'\n' :: (rest.takeWhile wsChar ++ [')']), ?_⟩
          have hsplit := List.takeWhile_append_dropWhile (p := wsChar) (l := rest)
          rw [hd, hdp, hr] at hsplit
          have hassoc : ('\n' :: (rest.takeWhile wsChar ++ [')'])) ++ r
              = '\n' :: (rest.takeWhile wsChar ++ ')' :: r) := by simp
          rw [hc, hassoc, hsplit]
        · rw [if_neg hdp] at h2
          exact Option.noConfusion h2
    · rw [if_neg hc] at h1
      exact Option.noConfusion h1

theorem lazyInner_decomp : ∀ (cs : List Char) {g r : List Char},
    lazyInner cs = some (g, r) → ∃ mid, cs = mid ++ r := by
  intro cs
  induction cs with
  | nil => intro g r h; exact Option.noConfusion h
  | cons c rest ih =>
    intro g r h
    have h1 : (match nlWsClose (c :: rest) with
      | some rest0 => some (([] : List Char), rest0)
      | none => (lazyInner rest).map fun gr => (c :: gr.1, gr.2)) = some (g, r) := h
    cases hN : nlWsClose (c :: rest) with
    | some r0 =>
      rw [hN] at h1
      have h2 : (some (([] : List Char), r0) : Option (List Char × List Char)) = some (g, r) := h1
      have h3 := Option.some.inj h2
      have hr : r0 = r := congrArg Prod.snd h3
      obtain ⟨mid, hm⟩ := nlWsClose_decomp hN
      exact ⟨mid, by rw [hm, hr]⟩
    | none =>
      rw [hN] at h1
      have h2 : (lazyInner rest).map (fun gr => (c :: gr.1, gr.2)) = some (g, r) := h1
      cases hL : lazyInner rest with
      | none =>
        rw [hL] at h2
        exact Option.noConfusion h2
      | some gr =>
        rw [hL] at h2
        have h3 := Option.some.inj h2
        have hr : gr.2 = r := congrArg Prod.snd h3
        obtain ⟨mid, hm⟩ := ih (g := gr.1) (r := gr.2) (by rw [hL])
        exact ⟨c :: mid, by rw [hm, hr]; rfl⟩

theorem wsNlInner_decomp : ∀ (cs : List Char) {g r : List Char},
    wsNlInner cs = some (g, r) → ∃ mid, cs = mid ++ r := by
  intro cs
  induction cs with
  | nil => intro g r h; exact Option.noConfusion h
  | cons c rest ih =>
    intro g r h
    have h1 : (if wsChar c then
        match wsNlInner rest with
        | some r2 => some r2
        | none => if c = '\n' then lazyInner rest else none
      else none) = some (g, r) := h
    by_cases hw : wsChar c
    · rw [if_pos hw] at h1
      cases hR : wsNlInner rest with
      | some pr =>
        rw [hR] at h1
        have hpr : pr = (g, r) := Option.some.inj h1
        obtain ⟨mid, hm⟩ := ih (g := g) (r := r) (by rw [hR, hpr])
        exact ⟨c :: mid, by rw [hm]; rfl⟩
      | none =>
        rw [hR] at h1
        have h2 : (if c = '\n' then lazyInner rest else none) = some (g, r) := h1
        by_cases hc : c = '\n'
        · rw [if_pos hc] at h2
          obtain ⟨mid, hm⟩ := lazyInner_decomp rest h2
          exact ⟨c :: mid, by rw [hm]; rfl⟩
        · rw [if_neg hc] at h2
          exact Option.noConfusion h2
    · rw [if_neg hw] at h1
      exact Option.noConfusion h1

theorem tvBlockAt_decomp {cs g post : List Char} (h : tvBlockAt cs = some (g, post)) :
    ∃ mid, cs = mid ++ post := by
  have h1 : (match dropLit "(text_variables".toList cs with
    | none => none
    | some r1 => wsNlInner r1) = some (g, post) := h
  cases hd : dropLit "(text_variables".toList cs with
  | none =>
    rw [hd] at h1
    exact Option.noConfusion h1
  | some r1 =>
    rw [hd] at h1
    obtain ⟨mid, hm⟩ := wsNlInner_decomp r1 h1
    refine ⟨"(text_variables".toList ++ mid, ?_⟩
    rw [dropLit_append _ _ _ hd, hm, List.append_assoc]

theorem findTvBlockL_decomp : ∀ (cs : List Char) {pre g post : List Char},
    findTvBlockL cs = some (pre, g, post) → ∃ mid, cs = pre ++ mid ++ post := by
  intro cs
  induction cs with
  | nil => intro pre g post h; exact Option.noConfusion h
  | cons c rest ih =>
    intro pre g post h
    have h1 : (match tvBlockAt (c :: rest) with
      | some (g0, post0) => some (([] : List Char), g0, post0)
      | none => (findTvBlockL rest).map fun r2 => (c :: r2.1, r2.2.1, r2.2.2))
        = some (pre, g, post) := h
    cases hA : tvBlockAt (c :: rest) with
    | some gp =>
      obtain ⟨g0, post0⟩ := gp
      rw [hA] at h1
      have h3 := Option.some.inj h1
      simp only [Prod.mk.injEq] at h3
      obtain ⟨h4, h5, h6⟩ := h3
      obtain ⟨mid, hm⟩ := tvBlockAt_decomp hA
      refine ⟨mid, ?_⟩
      rw [← h4, ← h6]
      simpa using hm
    | none =>
      rw [hA] at h1
      have h2 : (findTvBlockL rest).map (fun r2 => (c :: r2.1, r2.2.1, r2.2.2))
          = some (pre, g, post) := h1
      cases hB : findTvBlockL rest with
      | none =>
        rw [hB] at h2
        exact Option.noConfusion h2
      | some r3 =>
        rw [hB] at h2
        have h3 := Option.some.inj h2
        simp only [Prod.mk.injEq] at h3
        obtain ⟨h4, h5, h6⟩ := h3
        obtain ⟨mid, hm⟩ :=
          ih (show findTvBlockL rest = some (r3.1, r3.2.1, r3.2.2) by rw [hB])
        refine ⟨mid, ?_⟩
        rw [← h4, ← h6]
        simp [hm]

theorem lazyToNl_decomp : ∀ (cs : List Char) {m r : List Char},
    lazyToNl cs = some (m, r) → cs = m ++ r := by
  intro cs
  induction cs with
  | nil => intro m r h; exact Option.noConfusion h
  | cons c rest ih =>
    intro m r h
    have h1 : (if c = '\n' then some ((['\n'] : List Char), rest)
        else (lazyToNl rest).map fun mr => (c :: mr.1, mr.2)) = some (m, r) := h
    by_cases hc : c = '\n'
    · rw [if_pos hc] at h1
      have h3 := Option.some.inj h1
      simp only [Prod.mk.injEq] at h3
      obtain ⟨h4, h5⟩ := h3
      rw [← h4, ← h5, hc]
      rfl
    · rw [if_neg hc] at h1
      cases hL : lazyToNl rest with
      | none =>
        rw [hL] at h1
        exact Option.noConfusion h1
      | some mr =>
        rw [hL] at h1
        have h3 := Option.some.inj h1
        simp only [Prod.mk.injEq] at h3
        obtain ⟨h4, h5⟩ := h3
        have h6 := ih (m := mr.1) (r := mr.2) (by rw [hL])
        rw [← h4, ← h5, h6]
        rfl

theorem kicadProAt_decomp {cs m r : List Char} (h : kicadProAt cs = some (m, r)) :
    cs = m ++ r := by
  have h1 : (match dropLit "(kicad_pro".toList cs with
    | none => none
    | some r1 => (lazyToNl r1).map fun mr => ("(kicad_pro".toList ++ mr.1, mr.2))
      = some (m, r) := h
  cases hd : dropLit "(kicad_pro".toList cs with
  | none =>
    rw [hd] at h1
    exact Option.noConfusion h1
  | some r1 =>
    rw [hd] at h1
    have h2 : (lazyToNl r1).map (fun mr => ("(kicad_pro".toList ++ mr.1, mr.2))
        = some (m, r) := h1
    cases hL : lazyToNl r1 with
    | none =>
      rw [hL] at h2
      exact Option.noConfusion h2
    | some mr =>
      rw [hL] at h2
      have h3 := Option.some.inj h2
      simp only [Prod.mk.injEq] at h3
      obtain ⟨h4, h5⟩ := h3
      have h6 := lazyToNl_decomp r1 (m := mr.1) (r := mr.2) (by rw [hL])
      rw [← h4, ← h5]
      rw [dropLit_append _ _ _ hd, h6, List.append_assoc]

theorem findKicadProL_decomp : ∀ (cs : List Char) {p r : List Char},
    findKicadProL cs = some (p, r) → cs = p ++ r := by
  intro cs
  induction cs with
  | nil => intro p r h; exact Option.noConfusion h
  | cons c rest ih =>
    intro p r h
    have h1 : (match kicadProAt (c :: rest) with
      | some (m0, r0) => some (m0, r0)
      | none => (findKicadProL rest).map fun pr => (c :: pr.1, pr.2)) = some (p, r) := h
    cases hA : kicadProAt (c :: rest) with
    | some mr =>
      obtain ⟨m0, r0⟩ := mr
      rw [hA] at h1
      have h3 := Option.some.inj h1
      simp only [Prod.mk.injEq] at h3
      obtain ⟨h4, h5⟩ := h3
      rw [← h4, ← h5]
      exact kicadProAt_decomp hA
    | none =>
      rw [hA] at h1
      have h2 : (findKicadProL rest).map (fun pr => (c :: pr.1, pr.2)) = some (p, r) := h1
      cases hB : findKicadProL rest with
      | none =>
        rw [hB] at h2
        exact Option.noConfusion h2
      | some pr =>
        rw [hB] at h2
        have h3 := Option.some.inj h2
        simp only [Prod.mk.injEq] at h3
        obtain ⟨h4, h5⟩ := h3
        have h6 := ih (p := pr.1) (r := pr.2) (by rw [hB])
        rw [← h4, ← h5, h6]
        rfl

/-- When the stored text variables already carry the four computed values,
the JSON body (lines 102-125) finds nothing changed, reports a no-op, and
leaves the file untouched. -/
theorem jsonBody_noChange (revision status date branch raw : String) (data tv : Jobj)
    (dry : Bool) (gerr : List Msg)
    (htv : dictGet data "text_variables" = some (.obj tv))
    (h1 : dictGet tv "VERSION" = some (.str revision))
    (h2 : dictGet tv "BUILD_DATE" = some (.str date))
    (h3 : dictGet tv "STATUS" = some (.str status))
    (h4 : dictGet tv "BRANCH" = some (.str branch)) :
    jsonBody revision status date branch raw data dry gerr
      = ⟨.ok true, .parsed raw data, [.noChangesNeeded], gerr⟩ := by
  have hens : ensureTv data = data := by
    unfold ensureTv
    rw [htv]
    simp
  simp [jsonBody, hens, htv, h1, h2, h3, h4, jvalEqStr]

/-- Exhaustive description of a non-dry run of the JSON body: a reported
no-op, a write of the four updated variables, or the `AttributeError` from a
non-dict `text_variables` value. -/
theorem jsonBody_false_cases (r s d b raw : String) (data : Jobj) :
    jsonBody r s d b raw data false [] = ⟨.ok true, .parsed raw data, [.noChangesNeeded], []⟩
    ∨ (∃ tv, dictGet (ensureTv data) "text_variables" = some (.obj tv) ∧
        jsonBody r s d b raw data false [] =
          ⟨.ok true,
            .parsed (serializeObj 0 (dictSet (ensureTv data) "text_variables"
                (.obj (tvSetAll r s d b tv))) ++ "\n")
              (dictSet (ensureTv data) "text_variables" (.obj (tvSetAll r s d b tv))),
            [.updatedFile (fourVals r s d b)], []⟩)
    ∨ (jsonBody r s d b raw data false []).outcome = .error .attributeError := by
  simp only [jsonBody]
  split
  · rename_i tv hm
    split
    · left; rfl
    · right; left; exact ⟨tv, hm, rfl⟩
  · right; right; rfl

/-- The final file of any JSON body run: unchanged, or (only in a non-dry
run) the re-serialized document with the four variables set. -/
theorem jsonBody_finalFile (r s d b raw : String) (data : Jobj) (dry : Bool) (gerr : List Msg) :
    (jsonBody r s d b raw data dry gerr).finalFile = .parsed raw data
    ∨ ∃ tv, dictGet (ensureTv data) "text_variables" = some (.obj tv) ∧ dry = false ∧
        (jsonBody r s d b raw data dry gerr).finalFile =
          .parsed (serializeObj 0 (dictSet (ensureTv data) "text_variables"
              (.obj (tvSetAll r s d b tv))) ++ "\n")
            (dictSet (ensureTv data) "text_variables" (.obj (tvSetAll r s d b tv))) := by
  simp only [jsonBody]
  split
  · rename_i tv hm
    split
    · left; rfl
    · by_cases hd : dry
      · left
        simp [hd]
      · right
        refine ⟨tv, hm, by simpa using hd, ?_⟩
        simp [hd]
  · left; rfl

/-- Concrete S-expression project file with an existing `text_variables`
block holding a stale VERSION entry. -/
def sexprSample : String :=
  "(kicad_pro (version 1)\n  (text_variables\n    (VERSION \"v0\")\n  )\n)\n"

/-- Compact JSON project file with one unrelated key. -/
def jsonRawCompact : String := "\x7b\"other\": \"x\"\x7d"

/-- The parse of `jsonRawCompact`. -/
def jsonDocOther : Jobj := [("other", Jval.str "x")]

/-- What the updater writes for `jsonRawCompact` under `envMain`:
`json.dump(..., indent=2)` output plus the trailing newline. -/
def jsonRawPretty : String :=
  "\x7b\n  \"other\": \"x\",\n  \"text_variables\": \x7b\n    \"VERSION\": \"v1.2.0.3\",\n    \"BUILD_DATE\": \"2024-01-15\",\n    \"STATUS\": \"clean\",\n    \"BRANCH\": \"main\"\n  \x7d\n\x7d\n"

/-- The parse of `jsonRawPretty`. -/
def jsonDocUpdated : Jobj :=
  [("other", Jval.str "x"),
   ("text_variables", Jval.obj
     [("VERSION", Jval.str "v1.2.0.3"), ("BUILD_DATE", Jval.str "2024-01-15"),
      ("STATUS", Jval.str "clean"), ("BRANCH", Jval.str "main")])]

/-- Valid JSON whose `text_variables` value is a string, not an object. -/
def badTvFile : DiskFile :=
  .stored "\x7b\"text_variables\": \"oops\"\x7d" (some [("text_variables", Jval.str "oops")])

/-- Inputs on which `diagnose_project` cannot raise: everything except valid
JSON carrying a non-object `text_variables` value. -/
def diagSafe : DiskFile → Bool
  | .unreadable => true
  | .stored raw pj =>
    if pyStartsBrace raw then
      match pj with
      | some data =>
        match dictGet data "text_variables" with
        | some (.obj _) => true
        | some _ => false
        | none => true
      | none => true
    else true

theorem diagnose_project_ok (f : DiskFile) (h : diagSafe f = true) :
    ∃ o e, diagnose_project f = .ok (o, e) := by
  cases f with
  | unreadable => exact ⟨[], [.errReadFile], rfl⟩
  | stored raw pj =>
    by_cases hb : pyStartsBrace raw
    · cases pj with
      | none =>
        exact ⟨[.diagAnalyzing, .diagFormatJson, .diagInvalidJson], [],
          by simp [diagnose_project, hb]⟩
      | some data =>
        cases hv : dictGet data "text_variables" with
        | none =>
          exact ⟨[.diagAnalyzing, .diagFormatJson, .diagNoJsonVars], [],
            by simp [diagnose_project, hb, hv]⟩
        | some v =>
          cases v with
          | obj tv =>
            exact ⟨[.diagAnalyzing, .diagFormatJson, .diagJsonVars tv], [],
              by simp [diagnose_project, hb, hv]⟩
          | str a => exact absurd h (by simp [diagSafe, hb, hv])
          | num a => exact absurd h (by simp [diagSafe, hb, hv])
          | bool a => exact absurd h (by simp [diagSafe, hb, hv])
          | null => exact absurd h (by simp [diagSafe, hb, hv])
          | arr a => exact absurd h (by simp [diagSafe, hb, hv])
    · cases hs : diagSearchTv raw.toList with
      | some blk =>
        have hs2 : diagSearchTv raw.data = some blk := hs
        exact ⟨[.diagAnalyzing, .diagFormatSexpr, .diagSexprBlock ⟨blk⟩], [],
          by simp [diagnose_project, hb, hs2]⟩
      | none =>
        have hs2 : diagSearchTv raw.data = none := hs
        exact ⟨[.diagAnalyzing, .diagFormatSexpr, .diagNoSexprBlock], [],
          by simp [diagnose_project, hb, hs2]⟩

/-- C1: the claim says a resolver failure surfaces to the JSON updater as a
resolution failure that the updater observes and reports as an unsuccessful
operation.  In the code the failure triple `(None, None, None)` cannot be
unpacked into the four names on line 87, so the updater instead raises
`ValueError` before the `if revision is None` guard; the file is untouched
and the only report is the resolver's own stderr line. -/
theorem C1_json_updater_crashes_on_git_failure (file : JsonFileState) (dry : Bool) :
    update_kicad_project_json envNoRepo file dry
      = ⟨.error .valueError, file, [], [.errNotGitRepo]⟩ := by
  have hg : get_git_info envNoRepo = (.tuple3none, [.errNotGitRepo]) := rfl
  cases file <;> simp [update_kicad_project_json, hg]

/-- C2 counterexample: on an S-expression target with unchanged git state,
a (second) run of the updater raises the unpacking `ValueError` and prints
no no-op report, contradicting the claim that the second run detects the
match and reports a no-op. -/
theorem C2_counterexample :
    (update_kicad_project_sexpr envMain (.fileContent sexprSample) false).outcome
        = .error .valueError
    ∧ (update_kicad_project_sexpr envMain (.fileContent sexprSample) false).stdoutMsgs = [] :=
  ⟨rfl, rfl⟩

/-- C2 amended: the JSON updater is idempotent as claimed — after any
successful non-dry run, a second run with the same git state returns
success, reports "No changes needed", writes nothing, and leaves the file
byte-identical.  The S-expression updater never returns success and never
changes the file at all (every run stops at the tuple unpacking), so the
second run trivially produces zero diff but reports no no-op. -/
theorem C2_amended_idempotence :
    (∀ env file,
      (update_kicad_project_json env file false).outcome = .ok true →
      update_kicad_project_json env (update_kicad_project_json env file false).finalFile false
        = ⟨.ok true, (update_kicad_project_json env file false).finalFile,
            [.noChangesNeeded], []⟩)
    ∧ (∀ env file dry,
      (update_kicad_project_sexpr env file dry).finalFile = file ∧
      (update_kicad_project_sexpr env file dry).outcome ≠ .ok true) := by
  constructor
  · intro env file h
    rcases get_git_info_shape env with ⟨r, s, d, b, hg⟩ | hg
    · cases file with
      | unreadable => simp [update_kicad_project_json, hg] at h
      | malformed raw => simp [update_kicad_project_json, hg] at h
      | parsed raw data =>
        have hup : update_kicad_project_json env (.parsed raw data) false
            = jsonBody r s d b raw data false [] := by
          simp [update_kicad_project_json, hg]
        rcases jsonBody_false_cases r s d b raw data with hrun | ⟨tv, hm, hrun⟩ | hrun
        · have hfin : (update_kicad_project_json env (.parsed raw data) false).finalFile
              = .parsed raw data := by rw [hup, hrun]
          rw [hfin, hup, hrun]
        · have hfin : (update_kicad_project_json env (.parsed raw data) false).finalFile
              = .parsed (serializeObj 0 (dictSet (ensureTv data) "text_variables"
                    (.obj (tvSetAll r s d b tv))) ++ "\n")
                  (dictSet (ensureTv data) "text_variables" (.obj (tvSetAll r s d b tv))) := by
            rw [hup, hrun]
          rw [hfin]
          have hup2 : update_kicad_project_json env
              (.parsed (serializeObj 0 (dictSet (ensureTv data) "text_variables"
                  (.obj (tvSetAll r s d b tv))) ++ "\n")
                (dictSet (ensureTv data) "text_variables" (.obj (tvSetAll r s d b tv)))) false
              = jsonBody r s d b
                  (serializeObj 0 (dictSet (ensureTv data) "text_variables"
                    (.obj (tvSetAll r s d b tv))) ++ "\n")
                  (dictSet (ensureTv data) "text_variables" (.obj (tvSetAll r s d b tv)))
                  false [] := by
            simp [update_kicad_project_json, hg]
          rw [hup2]
          exact jsonBody_noChange r s d b _ _ (tvSetAll r s d b tv) false []
            (dictGet_dictSet_self _ _ _)
            (tvSetAll_get_VERSION r s d b tv) (tvSetAll_get_BUILD_DATE r s d b tv)
            (tvSetAll_get_STATUS r s d b tv) (tvSetAll_get_BRANCH r s d b tv)
        · rw [hup] at h
          rw [hrun] at h
          exact Except.noConfusion h
    · simp [update_kicad_project_json, hg] at h
  · intro env file dry
    rcases get_git_info_shape env with ⟨r, s, d, b, hg⟩ | hg <;>
      exact ⟨by simp [update_kicad_project_sexpr, hg], by simp [update_kicad_project_sexpr, hg]⟩

/-- C2 witness: the JSON idempotence theorem applied to the concrete compact
JSON file under the example environment. -/
theorem C2_witness :
    (update_kicad_project_json envMain (.parsed jsonRawCompact jsonDocOther) false).outcome
        = .ok true
    ∧ update_kicad_project_json envMain
        (update_kicad_project_json envMain (.parsed jsonRawCompact jsonDocOther) false).finalFile
        false
      = ⟨.ok true,
          (update_kicad_project_json envMain (.parsed jsonRawCompact jsonDocOther) false).finalFile,
          [.noChangesNeeded], []⟩ :=
  ⟨rfl, C2_amended_idempotence.1 envMain (.parsed jsonRawCompact jsonDocOther) rfl⟩

/-- C3: the claim says a repository with zero tags resolves successfully to
`v0.0.0.N`.  With no tags, `git describe` fails and the fallback tag
`v0.0.0` names no revision, so `git rev-list v0.0.0..HEAD --count` fails and
the resolver returns the failure triple instead.  The second conjunct shows
the `v0.0.0.N` combination the code would produce if that count query could
answer (here 7). -/
theorem C3_tagless_repository_resolution :
    get_git_info envNoTags = (.tuple3none, [.errNotGitRepo])
    ∧ get_git_info envNoTagsHyp = (.tuple4 "v0.0.0.7" "clean" "2024-01-15" "main", []) :=
  ⟨rfl, rfl⟩

/-- C4: on every successful resolution the revision string is the tag when
the commit count is the string "0" and `tag.count` otherwise, the status is
dirty exactly when `git status --porcelain` printed anything, and the build
date is the first token of the last-commit timestamp (today's date when that
output is empty). -/
theorem C4_version_string_derivation (env : GitEnv) (tag cnt br cd st : String)
    (h1 : env.describeTag = some tag) (h2 : env.revListCount tag = some cnt)
    (h3 : env.branch = some br) (h4 : env.logDate = some cd)
    (h5 : env.statusPorcelain = some st) :
    get_git_info env
      = (.tuple4 (if cnt = "0" then tag else tag ++ "." ++ cnt)
          (if st = "" then "clean" else "dirty")
          (if cd = "" then env.today else firstToken cd) br, []) := by
  simp [get_git_info, h1, h2, h3, h4, h5]

/-- C4 witness: the spec's example — tag `v1.2.0`, 3 commits after, clean
tree, branch `main`, commit date 2024-01-15 — yields VERSION `v1.2.0.3`,
STATUS `clean`, BUILD_DATE `2024-01-15`, BRANCH `main`. -/
theorem C4_witness :
    get_git_info envMain = (.tuple4 "v1.2.0.3" "clean" "2024-01-15" "main", []) := by
  rw [C4_version_string_derivation envMain "v1.2.0" "3" "main"
    "2024-01-15 10:23:45 +0100" "" rfl rfl rfl rfl rfl]
  rfl

/-- C5: whenever resolution succeeds, `get_git_info` returns a 4-tuple but
line 157 of the S-expression updater unpacks it into three names, so the
unpacking raises `ValueError` before any update: the file is unchanged and
nothing is printed. -/
theorem C5_sexpr_unpack_arity_mismatch (env : GitEnv) (file : TextFile) (dry : Bool)
    (r s d b : String) (hg : get_git_info env = (.tuple4 r s d b, [])) :
    update_kicad_project_sexpr env file dry = ⟨.error .valueError, file, [], []⟩ := by
  simp [update_kicad_project_sexpr, hg]

/-- C5 witness: the unpacking error on a concrete file under the example
environment. -/
theorem C5_witness :
    update_kicad_project_sexpr envMain (.fileContent "x") false
      = ⟨.error .valueError, .fileContent "x", [], []⟩ :=
  C5_sexpr_unpack_arity_mismatch envMain (.fileContent "x") false
    "v1.2.0.3" "clean" "2024-01-15" "main" rfl

/-- C6 counterexample: updating a compact JSON file rewrites bytes of
content unrelated to the four variables — already the second byte of the
file changes from `"` to a newline, because `json.dump(..., indent=2)`
re-serializes the whole document. -/
theorem C6_counterexample :
    (update_kicad_project_json envMain (.parsed jsonRawCompact jsonDocOther) false).finalFile
      = .parsed jsonRawPretty jsonDocUpdated
    ∧ jsonRawCompact.toList.get? 1 = some '"'
    ∧ jsonRawPretty.toList.get? 1 = some '\n' :=
  ⟨rfl, rfl, rfl⟩

/-- C6 amended: byte-for-byte preservation holds for the S-expression
transformation — outside the matched `text_variables` block the text is
spliced back unchanged, and the no-block fallback inserts the synthesized
section between two unchanged halves.  For the JSON updater only the parsed
document is preserved outside `text_variables` (every key other than
`text_variables` keeps its value); the bytes are re-serialized. -/
theorem C6_amended_preservation :
    (∀ rev date cs pre inner post, findTvBlockL cs = some (pre, inner, post) →
      (∃ mid, cs = pre ++ mid ++ post) ∧
      sexprTransformL rev date cs = pre ++ rebuiltBlock rev date inner ++ post)
    ∧ (∀ rev date cs preIncl rest, findTvBlockL cs = none →
      findKicadProL cs = some (preIncl, rest) →
      cs = preIncl ++ rest ∧
      sexprTransformL rev date cs = preIncl ++ sectionL rev date ++ rest)
    ∧ (∀ env raw data dry raw2 data2 k, k ≠ "text_variables" →
      (update_kicad_project_json env (.parsed raw data) dry).finalFile = .parsed raw2 data2 →
      dictGet data2 k = dictGet data k) := by
  refine ⟨?_, ?_, ?_⟩
  · intro rev date cs pre inner post h
    exact ⟨findTvBlockL_decomp cs h, by simp [sexprTransformL, h]⟩
  · intro rev date cs preIncl rest h1 h2
    exact ⟨findKicadProL_decomp cs h2, by simp [sexprTransformL, h1, h2]⟩
  · intro env raw data dry raw2 data2 k hk hf
    rcases get_git_info_shape env with ⟨r, s, d, b, hg⟩ | hg
    · have hup : update_kicad_project_json env (.parsed raw data) dry
          = jsonBody r s d b raw data dry [] := by
        simp [update_kicad_project_json, hg]
      rw [hup] at hf
      rcases jsonBody_finalFile r s d b raw data dry [] with hF | ⟨tv, hm, hdf, hF⟩
      · rw [hF] at hf
        have h5 : data = data2 := by
          have := hf
          simp only [JsonFileState.parsed.injEq] at this
          exact this.2
        rw [← h5]
      · rw [hF] at hf
        have h5 : dictSet (ensureTv data) "text_variables" (.obj (tvSetAll r s d b tv))
            = data2 := by
          have := hf
          simp only [JsonFileState.parsed.injEq] at this
          exact this.2
        rw [← h5, dictGet_dictSet_other _ _ _ _ (Ne.symm hk)]
        exact ensureTv_get_other data k hk
    · have hfin : (update_kicad_project_json env (.parsed raw data) dry).finalFile
          = .parsed raw data := by simp [update_kicad_project_json, hg]
      rw [hfin] at hf
      have h5 : data = data2 := by
        have := hf
        simp only [JsonFileState.parsed.injEq] at this
        exact this.2
      rw [← h5]

/-- C6 witness: the preservation theorem applied to concrete inputs — the
sample file's block splice, the header-only insertion, and the untouched
unrelated JSON key. -/
theorem C6_witness :
    sexprTransformL "v1.2.0.3".toList "2024-01-15".toList sexprSample.toList
      = "(kicad_pro (version 1)\n  ".toList
        ++ rebuiltBlock "v1.2.0.3".toList "2024-01-15".toList "    (VERSION \"v0\")".toList
        ++ "\n)\n".toList
    ∧ sexprTransformL "v1".toList "d".toList "(kicad_pro\n)\n".toList
      = "(kicad_pro\n".toList ++ sectionL "v1".toList "d".toList ++ ")\n".toList
    ∧ dictGet jsonDocUpdated "other" = dictGet jsonDocOther "other" :=
  ⟨(C6_amended_preservation.1 "v1.2.0.3".toList "2024-01-15".toList sexprSample.toList
      "(kicad_pro (version 1)\n  ".toList "    (VERSION \"v0\")".toList "\n)\n".toList rfl).2,
   (C6_amended_preservation.2.1 "v1".toList "d".toList "(kicad_pro\n)\n".toList
      "(kicad_pro\n".toList ")\n".toList rfl rfl).2,
   C6_amended_preservation.2.2 envMain jsonRawCompact jsonDocOther false
      jsonRawPretty jsonDocUpdated "other" (by decide) rfl⟩

/-- C7 counterexample: a file with neither a `text_variables` block nor a
`(kicad_pro` header is not treated as a format error — the update logic
reports success with "No changes needed" and prints nothing to stderr, and
the shipped updater fails on it with the unpacking `ValueError` (the same
error it gives every file), not with an anchor diagnostic. -/
theorem C7_counterexample :
    sexprBody "v1.2.0.3" "2024-01-15" (.fileContent "junk\n") false
      = ⟨.ok true, .fileContent "junk\n", [.noChangesNeeded], []⟩
    ∧ update_kicad_project_sexpr envMain (.fileContent "junk\n") false
      = ⟨.error .valueError, .fileContent "junk\n", [], []⟩ :=
  ⟨rfl, rfl⟩

/-- C7 amended: missing structural anchors are silently tolerated — when
the content has neither anchor, the update body leaves it unchanged,
reports "No changes needed" on stdout, prints nothing to stderr, and
returns success. -/
theorem C7_amended_missing_anchors_silent (rev date : String) (c : String) (dry : Bool)
    (h1 : findTvBlockL c.toList = none) (h2 : findKicadProL c.toList = none) :
    sexprBody rev date (.fileContent c) dry
      = ⟨.ok true, .fileContent c, [.noChangesNeeded], []⟩ := by
  obtain ⟨cl⟩ := c
  have h1a : findTvBlockL cl = none := h1
  have h2a : findKicadProL cl = none := h2
  have ht : sexprTransformL rev.data date.data cl = cl := by
    simp [sexprTransformL, h1a, h2a]
  have hstr : (⟨sexprTransformL rev.data date.data cl⟩ : String) = ⟨cl⟩ := by
    rw [ht]
  simp [sexprBody, hstr]

/-- C7 witness: the amended theorem at a concrete anchor-free file. -/
theorem C7_witness :
    sexprBody "v1.2.0.3" "2024-01-15" (.fileContent "hello\n") false
      = ⟨.ok true, .fileContent "hello\n", [.noChangesNeeded], []⟩ :=
  C7_amended_missing_anchors_silent "v1.2.0.3" "2024-01-15" "hello\n" false rfl rfl

/-- C8 counterexample: in dry-run mode the S-expression updater reports
nothing at all — it raises the unpacking `ValueError` instead of printing
the values it would write. -/
theorem C8_counterexample :
    (update_kicad_project_sexpr envMain (.fileContent sexprSample) true).stdoutMsgs = []
    ∧ (update_kicad_project_sexpr envMain (.fileContent sexprSample) true).outcome
        = .error .valueError :=
  ⟨rfl, rfl⟩

/-- C8 amended: no file is ever written under dry-run — the JSON updater
leaves the on-disk state unchanged for every input and git state (and so
does the S-expression updater, for every flag value, since it never reaches
a write).  The JSON updater does report the four would-be values when a
change is needed, as the concrete third conjunct shows; the S-expression
updater reports nothing. -/
theorem C8_amended_dry_run_no_write :
    (∀ env file, (update_kicad_project_json env file true).finalFile = file)
    ∧ (∀ env file dry, (update_kicad_project_sexpr env file dry).finalFile = file)
    ∧ (update_kicad_project_json envMain (.parsed jsonRawCompact jsonDocOther) true).stdoutMsgs
        = [.wouldUpdate
            [("VERSION", "v1.2.0.3"), ("BUILD_DATE", "2024-01-15"),
             ("STATUS", "clean"), ("BRANCH", "main")]] := by
  refine ⟨?_, ?_, rfl⟩
  · intro env file
    rcases get_git_info_shape env with ⟨r, s, d, b, hg⟩ | hg
    · cases file with
      | unreadable => simp [update_kicad_project_json, hg]
      | malformed raw => simp [update_kicad_project_json, hg]
      | parsed raw data =>
        have hup : update_kicad_project_json env (.parsed raw data) true
            = jsonBody r s d b raw data true [] := by
          simp [update_kicad_project_json, hg]
        rw [hup]
        rcases jsonBody_finalFile r s d b raw data true [] with hF | ⟨tv, hm, hcontra, hF⟩
        · exact hF
        · exact absurd hcontra (by simp)
    · simp [update_kicad_project_json, hg]
  · intro env file dry
    rcases get_git_info_shape env with ⟨r, s, d, b, hg⟩ | hg <;>
      simp [update_kicad_project_sexpr, hg]

/-- C9: a malformed JSON target is a hard failure for the JSON updater
under every git state: the file is never written, the run never returns
success, and an error line is printed to stderr (the JSON parse error, or
the resolver's error when git itself failed first). -/
theorem C9_malformed_json_hard_failure (env : GitEnv) (raw : String) (dry : Bool) :
    (update_kicad_project_json env (.malformed raw) dry).finalFile = .malformed raw
    ∧ (update_kicad_project_json env (.malformed raw) dry).outcome ≠ .ok true
    ∧ (update_kicad_project_json env (.malformed raw) dry).stderrMsgs ≠ [] := by
  rcases get_git_info_shape env with ⟨r, s, d, b, hg⟩ | hg <;>
    exact ⟨by simp [update_kicad_project_json, hg],
      by simp [update_kicad_project_json, hg],
      by simp [update_kicad_project_json, hg]⟩

/-- C10 counterexample: a valid-JSON project whose `text_variables` value is
a string makes diagnose mode call `.items()` on a non-dict (line 250), so
the process fails with `AttributeError` instead of exiting 0. -/
theorem C10_counterexample :
    (mainRun envMain ⟨true, true, badTvFile, false, false, true⟩).exitCode
      = .error .attributeError
    ∧ (mainRun envMain ⟨true, true, badTvFile, false, false, true⟩).exitCode ≠ .ok 0 :=
  ⟨rfl, fun hc => Except.noConfusion hc⟩

/-- C10 amended: in diagnose mode, for every existing `.kicad_pro` input on
which `diagnose_project` cannot raise — including unreadable files and
invalid JSON, excluding only valid JSON with a non-object `text_variables`
value — the process exits 0 and the file is never modified; the diagnostic
result is never consulted for the exit code. -/
theorem C10_amended_diagnose_exit_zero (env : GitEnv) (f : DiskFile) (dry ponly : Bool)
    (h : diagSafe f = true) :
    (mainRun env ⟨true, true, f, dry, ponly, true⟩).exitCode = .ok 0
    ∧ (mainRun env ⟨true, true, f, dry, ponly, true⟩).finalFile = f := by
  obtain ⟨o, e, hd⟩ := diagnose_project_ok f h
  exact ⟨by simp [mainRun, hd], by simp [mainRun, hd]⟩

/-- C10 witness: diagnose mode on an unreadable file exits 0 and leaves the
file alone. -/
theorem C10_witness :
    (mainRun envMain ⟨true, true, .unreadable, false, false, true⟩).exitCode = .ok 0
    ∧ (mainRun envMain ⟨true, true, .unreadable, false, false, true⟩).finalFile
        = .unreadable :=
  C10_amended_diagnose_exit_zero envMain .unreadable false false rfl
